import Mathlib

set_option maxHeartbeats 1000000
set_option maxRecDepth 100000

/-!
Shallow embedding of the tracedown in-memory trace store (storage.go) and the
span-tree reconstruction used by the markdown report writer, together with
proofs of the specified properties.

Time instants (time.Time values and time.Duration values, both nanosecond
resolution) are modelled as Int. Memory sizes (int64 in the source) are Int
for running totals and Nat for the nonnegative per-entry estimates. The
time.Now() calls of the source become explicit now parameters.
-/

/-- Span record: the fields of a ptrace.Span read by the verified code paths
(TraceID, SpanID, ParentSpanID, Name, StartTimestamp, EndTimestamp).
Identifiers are their pdata hex-string forms; the empty string corresponds to
an all-zero pdata id, for which IsEmpty is true and String returns the empty
string. Timestamps are uint64 nanoseconds modelled as Nat. -/
structure Span where
  traceId : String
  spanId : String
  parentSpanId : String
  name : String
  startTime : Nat
  endTime : Nat
deriving DecidableEq

/-- One ScopeSpans element: its list of spans. -/
structure ScopeSpans where
  spans : List Span
deriving DecidableEq

/-- One ResourceSpans element: its list of ScopeSpans. The resource and scope
attribute payloads are not read by any verified code path and are omitted. -/
structure ResourceSpans where
  scopeSpans : List ScopeSpans
deriving DecidableEq

/-- A ptrace.Traces batch: its list of ResourceSpans. -/
structure Traces where
  resourceSpans : List ResourceSpans
deriving DecidableEq

/-- Configuration values consumed by the store. The Config declaration lives
in a source file that is not part of the provided tree (only its uses are
visible); the fields and their zero-means-unlimited readings follow the uses
in storage.go and the configuration contract of the spec (maxBatches 0 =
unlimited, byte cap derived from a megabyte limit with 0 = unlimited,
maxAge 0 = never expire). MaxMemoryMB and MaxTraces are the nonnegative
validated values; TraceExpiration is a duration in nanoseconds. -/
structure Config where
  maxMemoryMB : Nat
  maxTraces : Nat
  traceExpiration : Int
deriving DecidableEq

/-- traceEntry: a stored batch with its receipt timestamp and size estimate. -/
structure TraceEntry where
  traces : Traces
  timestamp : Int
  sizeBytes : Nat
deriving DecidableEq

/-- TraceStorage: the bounded in-memory store. The sync.RWMutex field has no
pure content; the lock modes acquired by each operation are recorded
separately below. -/
structure TraceStorage where
  traces : List TraceEntry
  config : Config
  totalSizeBytes : Int
  totalSpanCount : Int
  droppedTraces : Nat
  droppedOldest : Nat
deriving DecidableEq

/-- NewTraceStorage: empty store with the given configuration. -/
def newTraceStorage (config : Config) : TraceStorage :=
  ⟨[], config, 0, 0, 0, 0⟩

/-- countSpans: total spans in a batch, summed over ResourceSpans and
ScopeSpans exactly as the nested loops of the source do. -/
def countSpans (traces : Traces) : Nat :=
  (traces.resourceSpans.map
    (fun rs => (rs.scopeSpans.map (fun ss => ss.spans.length)).sum)).sum

/-- estimateSize: base 100 bytes, 500 bytes per ResourceSpans element, 1024
bytes per span. -/
def estimateSize (traces : Traces) (spanCount : Nat) : Nat :=
  100 + traces.resourceSpans.length * 500 + spanCount * 1024

/-- The byte cap derived from MaxMemoryMB, as in int64 arithmetic. -/
def maxBytesOf (config : Config) : Int :=
  (config.maxMemoryMB : Int) * 1024 * 1024

/-- removeOldest: drop the front entry, subtract its size and recomputed span
count, increment droppedOldest. No-op on an empty store. -/
def removeOldest (s : TraceStorage) : TraceStorage :=
  match s.traces with
  | [] => s
  | oldest :: rest =>
    { s with
      traces := rest
      totalSizeBytes := s.totalSizeBytes - (oldest.sizeBytes : Int)
      totalSpanCount := s.totalSpanCount - (countSpans oldest.traces : Int)
      droppedOldest := s.droppedOldest + 1 }

/-- Loop body of evictOldestUntilRoom. Each iteration of the Go loop removes
exactly one entry from a nonempty list, so the initial list length is an
exact bound on the number of iterations and is used as structural fuel; when
the fuel reaches zero the list is empty and the Go loop would stop too. -/
def evictGo (newSize : Int) : Nat → TraceStorage → TraceStorage
  | 0, s => s
  | fuel + 1, s =>
    if s.traces ≠ [] ∧ maxBytesOf s.config < s.totalSizeBytes + newSize then
      evictGo newSize fuel (removeOldest s)
    else s

/-- evictOldestUntilRoom: remove oldest entries while the store is nonempty
and admitting newSize would still exceed the byte cap. -/
def evictOldestUntilRoom (s : TraceStorage) (newSize : Int) : TraceStorage :=
  evictGo newSize s.traces.length s

/-- Byte-limit phase of AddTraces: if a memory cap is configured and the new
entry would push the total past it, run evictOldestUntilRoom. -/
def byteCapPhase (s : TraceStorage) (estimatedSize : Nat) : TraceStorage :=
  if 0 < s.config.maxMemoryMB ∧
      maxBytesOf s.config < s.totalSizeBytes + (estimatedSize : Int) then
    evictOldestUntilRoom s (estimatedSize : Int)
  else s

/-- Count-limit phase of AddTraces: if a count cap is configured and the
store is at or past it, remove exactly one oldest entry. -/
def countCapPhase (s : TraceStorage) : TraceStorage :=
  if 0 < s.config.maxTraces ∧ s.config.maxTraces ≤ s.traces.length then
    removeOldest s
  else s

/-- AddTraces: clone (identity in a pure model), size the batch, run the byte
cap phase then the count cap phase, then always append the new entry and add
its size and span count to the running totals. -/
def addTraces (s : TraceStorage) (traces : Traces) (now : Int) : TraceStorage :=
  let spanCount := countSpans traces
  let estimatedSize := estimateSize traces spanCount
  let s2 := countCapPhase (byteCapPhase s estimatedSize)
  { s2 with
    traces := s2.traces ++ [⟨traces, now, estimatedSize⟩]
    totalSizeBytes := s2.totalSizeBytes + (estimatedSize : Int)
    totalSpanCount := s2.totalSpanCount + (spanCount : Int) }

/-- Keep test of expireOldTracesLocked: entry.timestamp.After(cutoff), that
is, the entry is retained exactly when its receipt time is strictly after
the cutoff. -/
def keepEntry (cutoff : Int) (entry : TraceEntry) : Bool :=
  decide (cutoff < entry.timestamp)

/-- One iteration of the expiry loop: a kept entry is appended to the new
list; an expired entry has its size and recomputed span count subtracted and
increments droppedOldest. -/
def expireStep (cutoff : Int) (acc : TraceStorage × List TraceEntry)
    (entry : TraceEntry) : TraceStorage × List TraceEntry :=
  if keepEntry cutoff entry then
    (acc.1, acc.2 ++ [entry])
  else
    ({ acc.1 with
        totalSizeBytes := acc.1.totalSizeBytes - (entry.sizeBytes : Int)
        totalSpanCount := acc.1.totalSpanCount - (countSpans entry.traces : Int)
        droppedOldest := acc.1.droppedOldest + 1 },
      acc.2)

/-- expireOldTracesLocked: no-op when TraceExpiration is nonpositive;
otherwise walk the entries with expireStep and install the filtered list
only when it is strictly shorter (as the source does). -/
def expireOldTracesLocked (s : TraceStorage) (now : Int) : TraceStorage :=
  if s.config.traceExpiration ≤ 0 then s
  else
    let cutoff := now - s.config.traceExpiration
    let res := s.traces.foldl (expireStep cutoff) (s, [])
    if res.2.length < s.traces.length then { res.1 with traces := res.2 }
    else res.1

/-- GetTraces: apply lazy expiry, then return the retained batches. The
returned pair is the mutated store together with the returned slice. -/
def getTraces (s : TraceStorage) (now : Int) : TraceStorage × List Traces :=
  let s2 := expireOldTracesLocked s now
  (s2, s2.traces.map (fun e => e.traces))

/-- Result tuple of GetStats. The final float64 megabyte figure of the source
is reported here as the underlying totalSizeBytes value, to stay within
exact arithmetic. -/
structure StatsResult where
  batches : Nat
  spans : Int
  droppedTraces : Nat
  droppedOldest : Nat
  sizeBytes : Int
deriving DecidableEq

/-- GetStats: a projection of the store fields, with no expiry. -/
def getStats (s : TraceStorage) : StatsResult :=
  ⟨s.traces.length, s.totalSpanCount, s.droppedTraces, s.droppedOldest,
    s.totalSizeBytes⟩

/-- Mode of the RWMutex acquisition an operation performs. -/
inductive LockMode where
  | shared
  | exclusive
deriving DecidableEq

/-- AddTraces acquires s.mu.Lock, the exclusive writer lock. -/
def addTracesLockMode : LockMode := LockMode.exclusive

/-- GetTraces acquires s.mu.RLock, the shared reader lock, and holds only
that while expireOldTracesLocked runs. -/
def getTracesLockMode : LockMode := LockMode.shared

/-- GetStats acquires s.mu.RLock, the shared reader lock. -/
def getStatsLockMode : LockMode := LockMode.shared

/-- An externally invokable store operation, with the wall-clock instant at
which it runs. -/
inductive Op where
  | ingest (traces : Traces) (now : Int)
  | snapshot (now : Int)
  | stats

/-- Run one operation against the store, returning the possibly mutated
store. GetStats never mutates; GetTraces mutates through lazy expiry. -/
def runOp (s : TraceStorage) : Op → TraceStorage
  | Op.ingest tr now => addTraces s tr now
  | Op.snapshot now => (getTraces s now).1
  | Op.stats => s

/-- Run a sequence of operations left to right. -/
def runOps (s : TraceStorage) (ops : List Op) : TraceStorage :=
  ops.foldl runOp s

/-!
Reconstruction (the markdown writer of the repository): grouping of spans by
trace id across batches, the per-id span map with last-write-wins
replacement, the span tree built by buildSpanTree and buildChildren, and the
ordering of traces by earliest start time.

Go maps do not expose a deterministic iteration order. Wherever the source
iterates a map (the values of spanMap inside buildChildren, and traceMap
when collecting the trace slice), the embedding takes the iteration order as
an explicit list parameter; any permutation of the map contents is a
possible run of the source.
-/

/-- Record one span under its trace id: append to the existing group for
that id, or create a new group. This models the traceMap updates of the
grouping loop; the association list carries the map content keyed by trace
id, with per-key span order equal to encounter order. -/
def upsertSpan (m : List (String × List Span)) (sp : Span) : List (String × List Span) :=
  match m with
  | [] => [(sp.traceId, [sp])]
  | (k, sps) :: rest =>
    if k = sp.traceId then (k, sps ++ [sp]) :: rest
    else (k, sps) :: upsertSpan rest sp

/-- Content of traceMap after the grouping loop of WriteMarkdown. -/
def groupByTrace (spans : List Span) : List (String × List Span) :=
  spans.foldl upsertSpan []

/-- Lookup of one trace group by trace id. -/
def lookupGroup (m : List (String × List Span)) (T : String) : List Span :=
  match m.find? (fun p => decide (p.1 = T)) with
  | some p => p.2
  | none => []

/-- Map assignment spanMap[id] = si of buildSpanTree: replace the binding
for that span id if present, else add it. Later assignments for the same id
overwrite earlier ones. -/
def insertSpanMap (m : List (String × Span)) (si : Span) : List (String × Span) :=
  match m with
  | [] => [(si.spanId, si)]
  | (k, v) :: rest =>
    if k = si.spanId then (k, si) :: rest
    else (k, v) :: insertSpanMap rest si

/-- Content of spanMap after the first loop of buildSpanTree, built over the
spans of one trace in their encounter order. -/
def mkSpanMap (spans : List Span) : List (String × Span) :=
  spans.foldl insertSpanMap []

/-- Node of the reconstructed span tree. -/
inductive SpanTreeNode where
  | node (span : Span) (children : List SpanTreeNode) (depth : Nat)

def SpanTreeNode.span : SpanTreeNode → Span
  | .node sp _ _ => sp

def SpanTreeNode.children : SpanTreeNode → List SpanTreeNode
  | .node _ c _ => c

def SpanTreeNode.depth : SpanTreeNode → Nat
  | .node _ _ d => d

/-- Stable insertion into a list sorted by start time: the inserted node
goes after every node with a strictly earlier start time and before the
first node that does not have one, so nodes with equal start times keep
their original relative order — matching the comparison
StartTimestamp i < StartTimestamp j used by the sort of buildChildren,
which moves no element past an equal one on these small inputs. -/
def insertByStart (x : SpanTreeNode) : List SpanTreeNode → List SpanTreeNode
  | [] => [x]
  | y :: rest =>
    if y.span.startTime < x.span.startTime then y :: insertByStart x rest
    else x :: y :: rest

/-- Sort children by start time (stable with respect to the pre-sort
order). -/
def sortByStart (l : List SpanTreeNode) : List SpanTreeNode :=
  l.foldr insertByStart []

/-- buildChildren: children of a node are the spans of the map whose
parentSpanId equals the node id, in map iteration order (the order
parameter), each built recursively, then sorted by start time. The source
recursion carries no visited set and no depth bound; the fuel argument makes
the call tree explicit: a none result means the recursion exceeded the given
depth allowance. A hypothetical terminating run corresponds to some fuel
returning some tree. -/
def buildChildrenF : Nat → List Span → Span → Nat → Option SpanTreeNode
  | 0, _, _, _ => none
  | fuel + 1, order, sp, depth =>
    match (order.filter (fun si => decide (si.parentSpanId = sp.spanId))).foldr
        (fun si acc =>
          match acc, buildChildrenF fuel order si (depth + 1) with
          | some ts, some t => some (t :: ts)
          | _, _ => none)
        (some []) with
    | none => none
    | some kids => some (SpanTreeNode.node sp (sortByStart kids) depth)

/-- Root selection of buildSpanTree. The loop takes the first span of the
slice whose ParentSpanID is empty (all zero). When one is found, the source
then evaluates rootSpan.span.SpanID().IsEmpty() on that valid span and, if
its own id is all zero as well, falls back to the first slice element. When
the loop finds nothing (also when the slice is empty), rootSpan stays the
zero value of spanInfo, whose ptrace.Span wraps a nil orig pointer: the
SpanID() call in that same check dereferences nil and the program panics;
that aborted path is the none result here. -/
def findRootSpan (tiSpans : List Span) : Option Span :=
  match tiSpans.find? (fun si => decide (si.parentSpanId = "")) with
  | some r =>
    match tiSpans with
    | first :: _ => some (if r.spanId = "" then first else r)
    | [] => some r
  | none => none

/-- Outcome of running buildSpanTree under a finite depth allowance: a
completed tree, a recursion that descended past the allowance (so no finite
allowance completes a nonterminating run), or the nil-dereference panic of
the no-root case. -/
inductive BuildOutcome where
  | tree (t : SpanTreeNode)
  | outOfFuel
  | panicNilSpan

/-- buildSpanTree under a depth allowance: select the root (panicking when
no span has an empty parent id), then build the children through
buildChildrenF over the map iteration order. -/
def buildSpanTreeRun (fuel : Nat) (tiSpans : List Span) (order : List Span) : BuildOutcome :=
  match findRootSpan tiSpans with
  | none => BuildOutcome.panicNilSpan
  | some root =>
    match buildChildrenF fuel order root 0 with
    | some t => BuildOutcome.tree t
    | none => BuildOutcome.outOfFuel

/-- The tree buildSpanTree produces when the run completes within the
allowance; none when the recursion exceeds it or the no-root panic fires. -/
def buildSpanTreeF (fuel : Nat) (tiSpans : List Span) (order : List Span) : Option SpanTreeNode :=
  match buildSpanTreeRun fuel tiSpans order with
  | BuildOutcome.tree t => some t
  | _ => none

/-- getEarliestTime: minimum StartTimestamp over the spans of a trace, 0 for
an empty span list, computed by the left-to-right scan of the source. -/
def getEarliestTime (sps : List Span) : Nat :=
  match sps with
  | [] => 0
  | first :: rest =>
    rest.foldl (fun earliest si =>
      if si.startTime < earliest then si.startTime else earliest) first.startTime

/-- Stable insertion for the trace sort of WriteMarkdown, which compares
getEarliestTime i < getEarliestTime j only. -/
def insertTraceByEarliest (x : String × List Span) :
    List (String × List Span) → List (String × List Span)
  | [] => [x]
  | y :: rest =>
    if getEarliestTime y.2 < getEarliestTime x.2 then y :: insertTraceByEarliest x rest
    else x :: y :: rest

/-- Sort the trace slice by earliest start time (stable with respect to the
order in which the traceMap iteration produced the slice). -/
def sortTracesByEarliest (l : List (String × List Span)) : List (String × List Span) :=
  l.foldr insertTraceByEarliest []

/-!
Helper definitions and lemmas about the store.
-/

/-- Sum of the stored size estimates of a list of entries. -/
def sizeSum (l : List TraceEntry) : Int :=
  (l.map (fun e => (e.sizeBytes : Int))).sum

/-- Sum of the recomputed span counts of a list of entries. -/
def spanSum (l : List TraceEntry) : Int :=
  (l.map (fun e => (countSpans e.traces : Int))).sum

/-- Accounting invariant of the spec: the running totals equal the sums
recomputed from scratch over the currently retained entries. -/
def accounting (s : TraceStorage) : Prop :=
  s.totalSizeBytes = sizeSum s.traces ∧ s.totalSpanCount = spanSum s.traces

lemma sizeSum_nil : sizeSum [] = 0 := rfl

lemma spanSum_nil : spanSum [] = 0 := rfl

lemma sizeSum_cons (e : TraceEntry) (l : List TraceEntry) :
    sizeSum (e :: l) = (e.sizeBytes : Int) + sizeSum l := by
  simp [sizeSum]

lemma spanSum_cons (e : TraceEntry) (l : List TraceEntry) :
    spanSum (e :: l) = (countSpans e.traces : Int) + spanSum l := by
  simp [spanSum]

lemma sizeSum_append (l1 l2 : List TraceEntry) :
    sizeSum (l1 ++ l2) = sizeSum l1 + sizeSum l2 := by
  simp [sizeSum]

lemma spanSum_append (l1 l2 : List TraceEntry) :
    spanSum (l1 ++ l2) = spanSum l1 + spanSum l2 := by
  simp [spanSum]

lemma removeOldest_nil (s : TraceStorage) (h : s.traces = []) :
    removeOldest s = s := by
  simp [removeOldest, h]

lemma removeOldest_cons (s : TraceStorage) (e : TraceEntry) (rest : List TraceEntry)
    (h : s.traces = e :: rest) :
    removeOldest s =
      { s with
        traces := rest
        totalSizeBytes := s.totalSizeBytes - (e.sizeBytes : Int)
        totalSpanCount := s.totalSpanCount - (countSpans e.traces : Int)
        droppedOldest := s.droppedOldest + 1 } := by
  simp [removeOldest, h]

lemma removeOldest_config (s : TraceStorage) :
    (removeOldest s).config = s.config := by
  cases h : s.traces with
  | nil => rw [removeOldest_nil s h]
  | cons e rest => rw [removeOldest_cons s e rest h]

lemma removeOldest_droppedTraces (s : TraceStorage) :
    (removeOldest s).droppedTraces = s.droppedTraces := by
  cases h : s.traces with
  | nil => rw [removeOldest_nil s h]
  | cons e rest => rw [removeOldest_cons s e rest h]

lemma removeOldest_accounting (s : TraceStorage) (hs : accounting s) :
    accounting (removeOldest s) := by
  cases h : s.traces with
  | nil => rw [removeOldest_nil s h]; exact hs
  | cons e rest =>
    rw [removeOldest_cons s e rest h]
    obtain ⟨h1, h2⟩ := hs
    rw [h] at h1 h2
    rw [sizeSum_cons] at h1
    rw [spanSum_cons] at h2
    constructor
    · simp only
      omega
    · simp only
      omega

lemma evictGo_config (newSize : Int) (fuel : Nat) :
    ∀ s : TraceStorage, (evictGo newSize fuel s).config = s.config := by
  induction fuel with
  | zero => intro s; rfl
  | succ n ih =>
    intro s
    by_cases h : s.traces ≠ [] ∧ maxBytesOf s.config < s.totalSizeBytes + newSize
    · simp [evictGo, h, ih, removeOldest_config]
    · simp [evictGo, h]

lemma evictGo_droppedTraces (newSize : Int) (fuel : Nat) :
    ∀ s : TraceStorage, (evictGo newSize fuel s).droppedTraces = s.droppedTraces := by
  induction fuel with
  | zero => intro s; rfl
  | succ n ih =>
    intro s
    by_cases h : s.traces ≠ [] ∧ maxBytesOf s.config < s.totalSizeBytes + newSize
    · simp [evictGo, h, ih, removeOldest_droppedTraces]
    · simp [evictGo, h]

lemma evictGo_accounting (newSize : Int) (fuel : Nat) :
    ∀ s : TraceStorage, accounting s → accounting (evictGo newSize fuel s) := by
  induction fuel with
  | zero => intro s hs; exact hs
  | succ n ih =>
    intro s hs
    by_cases h : s.traces ≠ [] ∧ maxBytesOf s.config < s.totalSizeBytes + newSize
    · simp only [evictGo]
      rw [if_pos h]
      exact ih _ (removeOldest_accounting s hs)
    · simp only [evictGo]
      rw [if_neg h]
      exact hs

lemma byteCapPhase_config (s : TraceStorage) (est : Nat) :
    (byteCapPhase s est).config = s.config := by
  by_cases h : 0 < s.config.maxMemoryMB ∧
      maxBytesOf s.config < s.totalSizeBytes + (est : Int)
  · simp [byteCapPhase, h, evictOldestUntilRoom, evictGo_config]
  · simp [byteCapPhase, h]

lemma byteCapPhase_droppedTraces (s : TraceStorage) (est : Nat) :
    (byteCapPhase s est).droppedTraces = s.droppedTraces := by
  by_cases h : 0 < s.config.maxMemoryMB ∧
      maxBytesOf s.config < s.totalSizeBytes + (est : Int)
  · simp [byteCapPhase, h, evictOldestUntilRoom, evictGo_droppedTraces]
  · simp [byteCapPhase, h]

lemma byteCapPhase_accounting (s : TraceStorage) (est : Nat) (hs : accounting s) :
    accounting (byteCapPhase s est) := by
  by_cases h : 0 < s.config.maxMemoryMB ∧
      maxBytesOf s.config < s.totalSizeBytes + (est : Int)
  · simp only [byteCapPhase, evictOldestUntilRoom]
    rw [if_pos h]
    exact evictGo_accounting _ _ _ hs
  · simp only [byteCapPhase]
    rw [if_neg h]
    exact hs

lemma byteCapPhase_noCap (s : TraceStorage) (est : Nat)
    (h : s.config.maxMemoryMB = 0) : byteCapPhase s est = s := by
  simp [byteCapPhase, h]

lemma countCapPhase_config (s : TraceStorage) :
    (countCapPhase s).config = s.config := by
  by_cases h : 0 < s.config.maxTraces ∧ s.config.maxTraces ≤ s.traces.length
  · simp [countCapPhase, h, removeOldest_config]
  · simp [countCapPhase, h]

lemma countCapPhase_droppedTraces (s : TraceStorage) :
    (countCapPhase s).droppedTraces = s.droppedTraces := by
  by_cases h : 0 < s.config.maxTraces ∧ s.config.maxTraces ≤ s.traces.length
  · simp [countCapPhase, h, removeOldest_droppedTraces]
  · simp [countCapPhase, h]

lemma countCapPhase_accounting (s : TraceStorage) (hs : accounting s) :
    accounting (countCapPhase s) := by
  by_cases h : 0 < s.config.maxTraces ∧ s.config.maxTraces ≤ s.traces.length
  · simp only [countCapPhase]
    rw [if_pos h]
    exact removeOldest_accounting s hs
  · simp only [countCapPhase]
    rw [if_neg h]
    exact hs

lemma addTraces_config (s : TraceStorage) (tr : Traces) (now : Int) :
    (addTraces s tr now).config = s.config := by
  simp [addTraces, countCapPhase_config, byteCapPhase_config]

lemma addTraces_droppedTraces (s : TraceStorage) (tr : Traces) (now : Int) :
    (addTraces s tr now).droppedTraces = s.droppedTraces := by
  simp [addTraces, countCapPhase_droppedTraces, byteCapPhase_droppedTraces]

lemma addTraces_accounting (s : TraceStorage) (tr : Traces) (now : Int)
    (hs : accounting s) : accounting (addTraces s tr now) := by
  have h2 := countCapPhase_accounting _ (byteCapPhase_accounting s (estimateSize tr (countSpans tr)) hs)
  obtain ⟨ha, hb⟩ := h2
  constructor
  · simp only [addTraces, sizeSum_append, sizeSum_cons, sizeSum_nil, ha]
    omega
  · simp only [addTraces, spanSum_append, spanSum_cons, spanSum_nil, hb]
    omega

/-- Entries removed by one expiry pass at the given cutoff. -/
def droppedOf (cutoff : Int) (l : List TraceEntry) : List TraceEntry :=
  l.filter (fun e => !(keepEntry cutoff e))

/-- Entries retained by one expiry pass at the given cutoff. -/
def keptOf (cutoff : Int) (l : List TraceEntry) : List TraceEntry :=
  l.filter (keepEntry cutoff)

lemma expireFold (cutoff : Int) (l : List TraceEntry) :
    ∀ (s : TraceStorage) (acc : List TraceEntry),
    l.foldl (expireStep cutoff) (s, acc) =
      ({ s with
          totalSizeBytes := s.totalSizeBytes - sizeSum (droppedOf cutoff l)
          totalSpanCount := s.totalSpanCount - spanSum (droppedOf cutoff l)
          droppedOldest := s.droppedOldest + (droppedOf cutoff l).length },
        acc ++ keptOf cutoff l) := by
  induction l with
  | nil =>
    intro s acc
    simp [droppedOf, keptOf, sizeSum_nil, spanSum_nil]
  | cons e rest ih =>
    intro s acc
    cases hk : keepEntry cutoff e with
    | true =>
      simp only [List.foldl_cons, expireStep, hk, if_true]
      rw [ih]
      simp [droppedOf, keptOf, List.filter_cons, hk]
    | false =>
      simp only [List.foldl_cons, expireStep, hk, Bool.false_eq_true, if_false]
      rw [ih]
      have hds : droppedOf cutoff (e :: rest) = e :: droppedOf cutoff rest := by
        simp [droppedOf, List.filter_cons, hk]
      have hks : keptOf cutoff (e :: rest) = keptOf cutoff rest := by
        simp [keptOf, List.filter_cons, hk]
      rw [hds, hks, sizeSum_cons, spanSum_cons]
      simp only [List.length_cons, Prod.mk.injEq, TraceStorage.mk.injEq,
        true_and, and_true]
      omega

lemma filter_all_of_length (p : TraceEntry → Bool) :
    ∀ l : List TraceEntry, (l.filter p).length = l.length →
      l.filter p = l ∧ l.filter (fun e => !(p e)) = [] := by
  intro l
  induction l with
  | nil => intro _; exact ⟨rfl, rfl⟩
  | cons a rest ih =>
    intro h
    cases ha : p a with
    | true =>
      rw [List.filter_cons, ha] at h
      simp only [if_true, List.length_cons] at h
      obtain ⟨h1, h2⟩ := ih (by omega)
      constructor
      · rw [List.filter_cons, ha]; simp [h1]
      · rw [List.filter_cons, ha]; simp [h2]
    | false =>
      exfalso
      rw [List.filter_cons, ha] at h
      simp only [Bool.false_eq_true, if_false, List.length_cons] at h
      have := List.length_filter_le p rest
      omega

lemma keptOf_cons_true (cutoff : Int) (e : TraceEntry) (rest : List TraceEntry)
    (hk : keepEntry cutoff e = true) :
    keptOf cutoff (e :: rest) = e :: keptOf cutoff rest := by
  simp [keptOf, List.filter_cons, hk]

lemma keptOf_cons_false (cutoff : Int) (e : TraceEntry) (rest : List TraceEntry)
    (hk : keepEntry cutoff e = false) :
    keptOf cutoff (e :: rest) = keptOf cutoff rest := by
  simp [keptOf, List.filter_cons, hk]

lemma droppedOf_cons_true (cutoff : Int) (e : TraceEntry) (rest : List TraceEntry)
    (hk : keepEntry cutoff e = true) :
    droppedOf cutoff (e :: rest) = droppedOf cutoff rest := by
  simp [droppedOf, List.filter_cons, hk]

lemma droppedOf_cons_false (cutoff : Int) (e : TraceEntry) (rest : List TraceEntry)
    (hk : keepEntry cutoff e = false) :
    droppedOf cutoff (e :: rest) = e :: droppedOf cutoff rest := by
  simp [droppedOf, List.filter_cons, hk]

lemma sizeSum_partition (cutoff : Int) (l : List TraceEntry) :
    sizeSum l = sizeSum (keptOf cutoff l) + sizeSum (droppedOf cutoff l) := by
  induction l with
  | nil => simp [keptOf, droppedOf, sizeSum_nil]
  | cons e rest ih =>
    cases hk : keepEntry cutoff e with
    | true =>
      rw [keptOf_cons_true cutoff e rest hk, droppedOf_cons_true cutoff e rest hk,
        sizeSum_cons, sizeSum_cons]
      omega
    | false =>
      rw [keptOf_cons_false cutoff e rest hk, droppedOf_cons_false cutoff e rest hk,
        sizeSum_cons, sizeSum_cons]
      omega

lemma spanSum_partition (cutoff : Int) (l : List TraceEntry) :
    spanSum l = spanSum (keptOf cutoff l) + spanSum (droppedOf cutoff l) := by
  induction l with
  | nil => simp [keptOf, droppedOf, spanSum_nil]
  | cons e rest ih =>
    cases hk : keepEntry cutoff e with
    | true =>
      rw [keptOf_cons_true cutoff e rest hk, droppedOf_cons_true cutoff e rest hk,
        spanSum_cons, spanSum_cons]
      omega
    | false =>
      rw [keptOf_cons_false cutoff e rest hk, droppedOf_cons_false cutoff e rest hk,
        spanSum_cons, spanSum_cons]
      omega

/-- Characterization of one expiry pass when a positive expiration is
configured: exactly the entries not strictly newer than the cutoff are
removed, the totals drop by their sums, and droppedOldest grows by their
number. -/
lemma expire_spec (s : TraceStorage) (now : Int)
    (hpos : 0 < s.config.traceExpiration) :
    expireOldTracesLocked s now =
      { s with
        traces := keptOf (now - s.config.traceExpiration) s.traces
        totalSizeBytes := s.totalSizeBytes -
          sizeSum (droppedOf (now - s.config.traceExpiration) s.traces)
        totalSpanCount := s.totalSpanCount -
          spanSum (droppedOf (now - s.config.traceExpiration) s.traces)
        droppedOldest := s.droppedOldest +
          (droppedOf (now - s.config.traceExpiration) s.traces).length } := by
  have hne : ¬ s.config.traceExpiration ≤ 0 := by omega
  simp only [expireOldTracesLocked, hne, if_false]
  rw [expireFold]
  by_cases hlt :
      (keptOf (now - s.config.traceExpiration) s.traces).length < s.traces.length
  · simp only [List.nil_append]
    rw [if_pos hlt]
  · simp only [List.nil_append]
    rw [if_neg hlt]
    have hle : (keptOf (now - s.config.traceExpiration) s.traces).length ≤ s.traces.length :=
      List.length_filter_le _ _
    have heq : (keptOf (now - s.config.traceExpiration) s.traces).length = s.traces.length := by
      omega
    obtain ⟨h1, h2⟩ := filter_all_of_length (keepEntry (now - s.config.traceExpiration))
      s.traces heq
    have h1k : keptOf (now - s.config.traceExpiration) s.traces = s.traces := h1
    have h2d : droppedOf (now - s.config.traceExpiration) s.traces = [] := h2
    rw [h1k, h2d]

lemma expire_noCap (s : TraceStorage) (now : Int)
    (h : s.config.traceExpiration ≤ 0) : expireOldTracesLocked s now = s := by
  simp [expireOldTracesLocked, h]

lemma expire_config (s : TraceStorage) (now : Int) :
    (expireOldTracesLocked s now).config = s.config := by
  by_cases h : s.config.traceExpiration ≤ 0
  · rw [expire_noCap s now h]
  · rw [expire_spec s now (by omega)]

lemma expire_droppedTraces (s : TraceStorage) (now : Int) :
    (expireOldTracesLocked s now).droppedTraces = s.droppedTraces := by
  by_cases h : s.config.traceExpiration ≤ 0
  · rw [expire_noCap s now h]
  · rw [expire_spec s now (by omega)]

lemma expire_accounting (s : TraceStorage) (now : Int) (hs : accounting s) :
    accounting (expireOldTracesLocked s now) := by
  by_cases h : s.config.traceExpiration ≤ 0
  · rw [expire_noCap s now h]; exact hs
  · rw [expire_spec s now (by omega)]
    obtain ⟨h1, h2⟩ := hs
    constructor
    · simp only
      rw [h1, sizeSum_partition (now - s.config.traceExpiration) s.traces]
      omega
    · simp only
      rw [h2, spanSum_partition (now - s.config.traceExpiration) s.traces]
      omega

lemma runOp_accounting (s : TraceStorage) (op : Op) (hs : accounting s) :
    accounting (runOp s op) := by
  cases op with
  | ingest tr now => exact addTraces_accounting s tr now hs
  | snapshot now => exact expire_accounting s now hs
  | stats => exact hs

lemma runOp_droppedTraces (s : TraceStorage) (op : Op) :
    (runOp s op).droppedTraces = s.droppedTraces := by
  cases op with
  | ingest tr now => exact addTraces_droppedTraces s tr now
  | snapshot now => exact expire_droppedTraces s now
  | stats => rfl

lemma runOps_accounting (ops : List Op) :
    ∀ s : TraceStorage, accounting s → accounting (runOps s ops) := by
  induction ops with
  | nil => intro s hs; exact hs
  | cons op rest ih =>
    intro s hs
    exact ih (runOp s op) (runOp_accounting s op hs)

lemma runOps_droppedTraces (ops : List Op) :
    ∀ s : TraceStorage, (runOps s ops).droppedTraces = s.droppedTraces := by
  induction ops with
  | nil => intro s; rfl
  | cons op rest ih =>
    intro s
    show (runOps (runOp s op) rest).droppedTraces = s.droppedTraces
    rw [ih (runOp s op), runOp_droppedTraces]

/-- Admit a list of batches, each with its arrival instant, left to right. -/
def admitAll (s : TraceStorage) (bs : List (Traces × Int)) : TraceStorage :=
  bs.foldl (fun acc b => addTraces acc b.1 b.2) s

lemma addTraces_countCap_step (s : TraceStorage) (tr : Traces) (now : Int)
    (hmem : s.config.maxMemoryMB = 0) (hN : 0 < s.config.maxTraces)
    (hle : s.traces.length ≤ s.config.maxTraces) :
    (addTraces s tr now).traces.length
      = min (s.traces.length + 1) s.config.maxTraces ∧
    (addTraces s tr now).droppedOldest + (addTraces s tr now).traces.length
      = s.droppedOldest + s.traces.length + 1 := by
  have hbp : byteCapPhase s (estimateSize tr (countSpans tr)) = s :=
    byteCapPhase_noCap s _ hmem
  by_cases hc : s.config.maxTraces ≤ s.traces.length
  · have hlen : s.traces.length = s.config.maxTraces := by omega
    cases htr : s.traces with
    | nil =>
      rw [htr] at hlen
      simp only [List.length_nil] at hlen
      omega
    | cons e rest =>
      have h1 : s.traces.length = rest.length + 1 := by rw [htr]; rfl
      have hcp : countCapPhase s = removeOldest s := by
        simp only [countCapPhase]
        rw [if_pos ⟨hN, hc⟩]
      have hro := removeOldest_cons s e rest htr
      simp only [addTraces, hbp, hcp, hro, List.length_append, List.length_cons,
        List.length_nil]
      constructor
      · omega
      · omega
  · have hcp : countCapPhase s = s := by
      simp only [countCapPhase]
      rw [if_neg]
      intro h
      exact hc h.2
    simp only [addTraces, hbp, hcp, List.length_append, List.length_cons,
      List.length_nil]
    constructor
    · omega
    · omega

lemma admitAll_countCap (bs : List (Traces × Int)) :
    ∀ s : TraceStorage, s.config.maxMemoryMB = 0 → 0 < s.config.maxTraces →
    s.traces.length ≤ s.config.maxTraces →
    (admitAll s bs).config = s.config ∧
    (admitAll s bs).traces.length
      = min (s.traces.length + bs.length) s.config.maxTraces ∧
    (admitAll s bs).droppedOldest + (admitAll s bs).traces.length
      = s.droppedOldest + s.traces.length + bs.length := by
  induction bs with
  | nil =>
    intro s h1 h2 h3
    refine ⟨rfl, ?_, ?_⟩
    · show s.traces.length = min (s.traces.length + 0) s.config.maxTraces
      omega
    · show s.droppedOldest + s.traces.length = s.droppedOldest + s.traces.length + 0
      omega
  | cons b rest ih =>
    intro s h1 h2 h3
    have hstep := addTraces_countCap_step s b.1 b.2 h1 h2 h3
    have hcfg := addTraces_config s b.1 b.2
    have hle2 : (addTraces s b.1 b.2).traces.length
        ≤ (addTraces s b.1 b.2).config.maxTraces := by
      rw [hcfg, hstep.1]
      omega
    have ih2 := ih (addTraces s b.1 b.2)
      (by rw [hcfg]; exact h1) (by rw [hcfg]; exact h2) hle2
    rw [hcfg] at ih2
    have hunfold : admitAll s (b :: rest) = admitAll (addTraces s b.1 b.2) rest := rfl
    have hcons : (b :: rest).length = rest.length + 1 := rfl
    refine ⟨by rw [hunfold, ih2.1], ?_, ?_⟩
    · rw [hunfold, ih2.2.1, hstep.1, hcons]
      omega
    · rw [hunfold]
      have k2 := ih2.2.2
      have k1 := ih2.2.1
      rw [hstep.1] at k1 k2
      rw [hcons]
      omega

/-- Claim C1: with maxBatches = N at least 1 and no byte cap, admitting
N + k batches (k at least 1) into an empty store leaves exactly N retained
entries, and the counter incremented by limit evictions (droppedOldest, the
field Stats exposes for drops) equals k. -/
theorem countCap_retains_exactly (N k : Nat) (hN : 1 ≤ N) (hk : 1 ≤ k)
    (exp : Int) (bs : List (Traces × Int)) (hlen : bs.length = N + k) :
    (admitAll (newTraceStorage ⟨0, N, exp⟩) bs).traces.length = N ∧
    (getStats (admitAll (newTraceStorage ⟨0, N, exp⟩) bs)).droppedOldest = k := by
  have h := admitAll_countCap bs (newTraceStorage ⟨0, N, exp⟩) rfl
    (by show 0 < N; omega) (by show (0:Nat) ≤ N; omega)
  have hempty : (newTraceStorage ⟨0, N, exp⟩).traces.length = 0 := rfl
  have hdrop : (newTraceStorage ⟨0, N, exp⟩).droppedOldest = 0 := rfl
  have hgs : (getStats (admitAll (newTraceStorage ⟨0, N, exp⟩) bs)).droppedOldest
      = (admitAll (newTraceStorage ⟨0, N, exp⟩) bs).droppedOldest := rfl
  rw [hempty, hdrop, hlen] at h
  have hmax : (newTraceStorage ⟨0, N, exp⟩).config.maxTraces = N := rfl
  rw [hmax] at h
  constructor
  · rw [h.2.1]
    omega
  · rw [hgs]
    have := h.2.2
    rw [h.2.1] at this
    omega

/-- Witness for C1 at N = 2, k = 1: three empty batches. -/
theorem countCap_retains_exactly_witness :
    1 ≤ 2 ∧ 1 ≤ 1 ∧
    ([((⟨[]⟩ : Traces), (0 : Int)), (⟨[]⟩, 1), (⟨[]⟩, 2)]).length = 2 + 1 ∧
    ((admitAll (newTraceStorage ⟨0, 2, 0⟩)
        [((⟨[]⟩ : Traces), (0 : Int)), (⟨[]⟩, 1), (⟨[]⟩, 2)]).traces.length = 2 ∧
      (getStats (admitAll (newTraceStorage ⟨0, 2, 0⟩)
        [((⟨[]⟩ : Traces), (0 : Int)), (⟨[]⟩, 1), (⟨[]⟩, 2)])).droppedOldest = 1) :=
  ⟨by decide, by decide, by decide,
    countCap_retains_exactly 2 1 (by decide) (by decide) 0 _ (by decide)⟩

/-- Claim C3: after any sequence of operations (admissions with arbitrary
caps configured, snapshots with their lazy expiry, stats reads) starting
from a new store, the running totals equal the sums recomputed from scratch
over the currently retained entries. -/
theorem accounting_invariant_holds (config : Config) (ops : List Op) :
    accounting (runOps (newTraceStorage config) ops) :=
  runOps_accounting ops (newTraceStorage config) ⟨rfl, rfl⟩

/-- Claim C10: no operation ever increments droppedTraces: after any
sequence of operations from a new store the third field of GetStats is 0;
the limit and age drops land in droppedOldest instead (see the count cap and
expiry theorems). -/
theorem droppedTraces_always_zero (config : Config) (ops : List Op) :
    (getStats (runOps (newTraceStorage config) ops)).droppedTraces = 0 := by
  have h := runOps_droppedTraces ops (newTraceStorage config)
  have h0 : (newTraceStorage config).droppedTraces = 0 := rfl
  have hgs : (getStats (runOps (newTraceStorage config) ops)).droppedTraces
      = (runOps (newTraceStorage config) ops).droppedTraces := rfl
  rw [hgs, h, h0]

lemma evictGo_post (newSize : Int) :
    ∀ (fuel : Nat) (s : TraceStorage), s.traces.length ≤ fuel →
    ((evictGo newSize fuel s).traces = [] ∨
      (evictGo newSize fuel s).totalSizeBytes + newSize ≤ maxBytesOf s.config) ∧
    (evictGo newSize fuel s).traces.IsSuffix s.traces := by
  intro fuel
  induction fuel with
  | zero =>
    intro s hlen
    have h0 : s.traces = [] := List.length_eq_zero.mp (by omega)
    exact ⟨Or.inl h0, List.suffix_refl _⟩
  | succ n ih =>
    intro s hlen
    by_cases hc : s.traces ≠ [] ∧ maxBytesOf s.config < s.totalSizeBytes + newSize
    · have hred : evictGo newSize (n + 1) s = evictGo newSize n (removeOldest s) := by
        simp only [evictGo]
        rw [if_pos hc]
      cases htr : s.traces with
      | nil => exact absurd htr hc.1
      | cons e rest =>
        have hro := removeOldest_cons s e rest htr
        have hlen2 : (removeOldest s).traces.length ≤ n := by
          rw [hro]
          have : s.traces.length = rest.length + 1 := by rw [htr]; rfl
          simp only
          omega
        have hpost := ih (removeOldest s) hlen2
        have hcfg : (removeOldest s).config = s.config := removeOldest_config s
        have htrro : (removeOldest s).traces = rest := by rw [hro]
        rw [hred]
        constructor
        · rcases hpost.1 with h | h
          · exact Or.inl h
          · right
            rw [hcfg] at h
            exact h
        · have hsf : (evictGo newSize n (removeOldest s)).traces.IsSuffix rest := by
            rw [htrro] at hpost
            exact hpost.2
          exact hsf.trans (List.suffix_cons e rest)
    · have hred : evictGo newSize (n + 1) s = s := by
        simp only [evictGo]
        rw [if_neg hc]
      rw [hred]
      rw [not_and_or] at hc
      rcases hc with h | h
      · exact ⟨Or.inl (not_not.mp h), List.suffix_refl _⟩
      · exact ⟨Or.inr (by omega), List.suffix_refl _⟩

/-- Claim C5: with a byte cap configured (maxMemoryMB at least 1), a single
batch whose estimate exceeds the cap, admitted into an empty store, is
retained (not rejected) and leaves totalSizeBytes above the cap. In general
the eviction loop removes oldest entries until there is room or the store is
empty (and only ever removes from the front, leaving a suffix), and
admission always appends the new batch afterwards. -/
theorem byteCap_oversized_admitted (mb mt : Nat) (exp : Int) (tr : Traces) (now : Int)
    (hmb : 1 ≤ mb)
    (hover : (mb : Int) * 1024 * 1024 < (estimateSize tr (countSpans tr) : Int)) :
    (addTraces (newTraceStorage ⟨mb, mt, exp⟩) tr now).traces
      = [⟨tr, now, estimateSize tr (countSpans tr)⟩] ∧
    (mb : Int) * 1024 * 1024
      < (addTraces (newTraceStorage ⟨mb, mt, exp⟩) tr now).totalSizeBytes ∧
    (∀ s0 : TraceStorage,
      ((evictOldestUntilRoom s0 (estimateSize tr (countSpans tr) : Int)).traces = [] ∨
        (evictOldestUntilRoom s0 (estimateSize tr (countSpans tr) : Int)).totalSizeBytes
          + (estimateSize tr (countSpans tr) : Int) ≤ maxBytesOf s0.config) ∧
      (evictOldestUntilRoom s0
        (estimateSize tr (countSpans tr) : Int)).traces.IsSuffix s0.traces) ∧
    (∀ s0 : TraceStorage, ∃ pre,
      (addTraces s0 tr now).traces
        = pre ++ [⟨tr, now, estimateSize tr (countSpans tr)⟩]) := by
  have h1 : byteCapPhase (newTraceStorage ⟨mb, mt, exp⟩)
      (estimateSize tr (countSpans tr)) = newTraceStorage ⟨mb, mt, exp⟩ := by
    simp only [byteCapPhase, evictOldestUntilRoom]
    split
    · rfl
    · rfl
  have h2 : countCapPhase (newTraceStorage ⟨mb, mt, exp⟩)
      = newTraceStorage ⟨mb, mt, exp⟩ := by
    simp only [countCapPhase]
    rw [if_neg]
    intro h
    obtain ⟨ha, hb⟩ := h
    have hl : (newTraceStorage ⟨mb, mt, exp⟩).traces.length = 0 := rfl
    rw [hl] at hb
    omega
  refine ⟨?_, ?_, ?_, ?_⟩
  · simp only [addTraces, h1, h2]
    rfl
  · simp only [addTraces, h1, h2]
    have h0 : (newTraceStorage ⟨mb, mt, exp⟩).totalSizeBytes = 0 := rfl
    simp only [h0]
    omega
  · intro s0
    exact evictGo_post (estimateSize tr (countSpans tr) : Int) s0.traces.length s0
      (le_refl _)
  · intro s0
    exact ⟨(countCapPhase (byteCapPhase s0 (estimateSize tr (countSpans tr)))).traces,
      rfl⟩

/-- Oversized concrete batch: one resource, one scope, 1024 spans, giving an
estimate of 1049176 bytes, above a 1 MB cap. -/
def bigBatch : Traces :=
  ⟨[⟨[⟨List.replicate 1024 ⟨"t", "s", "", "x", 1, 2⟩⟩]⟩]⟩

/-- Witness for C5 at mb = 1 with a 1024-span batch. -/
theorem byteCap_oversized_admitted_witness :
    1 ≤ 1 ∧
    ((1 : Nat) : Int) * 1024 * 1024
      < (estimateSize bigBatch (countSpans bigBatch) : Int) ∧
    (addTraces (newTraceStorage ⟨1, 0, 0⟩) bigBatch 5).traces
      = [⟨bigBatch, 5, estimateSize bigBatch (countSpans bigBatch)⟩] :=
  ⟨le_refl 1, by decide,
    (byteCap_oversized_admitted 1 0 0 bigBatch 5 (le_refl 1) (by decide)).1⟩

/-- Two-span parent cycle: A names B as parent and B names A. -/
def spanA : Span := ⟨"t", "aa", "bb", "a", 5, 6⟩

def spanB : Span := ⟨"t", "bb", "aa", "b", 7, 8⟩

/-- A span whose SpanID and ParentSpanID are both all zero (empty strings in
pdata hex form). Its empty parent makes it the span the root loop finds, and
its empty own id then sends the (valid, panic-free) fallback check of
buildSpanTree to the first slice element. -/
def spanZ : Span := ⟨"t", "", "", "z", 9, 9⟩

lemma cycle_buildChildren_none :
    ∀ (fuel : Nat) (d : Nat),
      buildChildrenF fuel [spanA, spanB, spanZ] spanA d = none ∧
      buildChildrenF fuel [spanA, spanB, spanZ] spanB d = none := by
  intro fuel
  induction fuel with
  | zero => intro d; exact ⟨rfl, rfl⟩
  | succ n ih =>
    intro d
    constructor
    · have hf : ([spanA, spanB, spanZ].filter
          (fun si => decide (si.parentSpanId = spanA.spanId))) = [spanB] := by decide
      simp only [buildChildrenF, hf, List.foldr_cons, List.foldr_nil]
      rw [(ih (d + 1)).2]
    · have hf : ([spanA, spanB, spanZ].filter
          (fun si => decide (si.parentSpanId = spanB.spanId))) = [spanA] := by decide
      simp only [buildChildrenF, hf, List.foldr_cons, List.foldr_nil]
      rw [(ih (d + 1)).1]

/-- Claim C2 (refutation): on the trace holding the parent cycle A, B plus
the all-zero-id span Z, root selection succeeds without panicking (it finds
Z, whose empty own id sends the fallback to the first slice element, A,
inside the cycle), and buildChildren then revisits A and B forever: no
finite depth allowance completes, so reconstruction does not terminate in
any bound on this input. On the bare two-span cycle with no empty-parent
span at all, the run instead aborts in root selection with the
nil-dereference panic. -/
theorem cycle_reconstruction_never_terminates :
    ∀ fuel : Nat,
      buildSpanTreeRun fuel [spanA, spanB, spanZ] [spanA, spanB, spanZ]
        = BuildOutcome.outOfFuel ∧
      findRootSpan [spanA, spanB, spanZ] = some spanA ∧
      buildSpanTreeRun fuel [spanA, spanB] [spanA, spanB]
        = BuildOutcome.panicNilSpan := by
  intro fuel
  refine ⟨?_, rfl, rfl⟩
  have h := (cycle_buildChildren_none fuel 0).1
  show (match buildChildrenF fuel [spanA, spanB, spanZ] spanA 0 with
        | some t => BuildOutcome.tree t
        | none => BuildOutcome.outOfFuel) = BuildOutcome.outOfFuel
  rw [h]

/-- Sample store for the expiry theorems: one batch with one span, received
at instant 0, with expiration window 10. -/
def c9batch : Traces := ⟨[⟨[⟨[⟨"t", "s1", "", "x", 1, 2⟩]⟩]⟩]⟩

def c9store : TraceStorage :=
  { traces := [⟨c9batch, 0, 1624⟩]
    config := ⟨0, 0, 10⟩
    totalSizeBytes := 1624
    totalSpanCount := 1
    droppedTraces := 0
    droppedOldest := 0 }

/-- Claim C4 (refutation): GetTraces holds only the shared reader lock (not
the exclusive discipline of AddTraces) while its lazy expiry runs, and that
expiry really mutates the store, as evaluated on a store with one expired
entry. -/
theorem expiry_runs_under_shared_lock :
    getTracesLockMode = LockMode.shared ∧
    addTracesLockMode = LockMode.exclusive ∧
    getTracesLockMode ≠ addTracesLockMode ∧
    (getTraces c9store 10).1 ≠ c9store := by decide

/-- Claim C9 (amended): when a positive maxAge is configured, one snapshot
retains exactly the entries received strictly after now minus maxAge and
removes the rest (so an entry received exactly at now minus maxAge is
removed, not kept), subtracts the removed sizes and span counts from the
totals, and increments droppedOldest (the counter holding age drops) by
exactly the number of entries expired in that call; with maxAge
nonpositive no entry ever expires. -/
theorem ageExpiry_boundary_spec (s : TraceStorage) (now : Int) :
    (s.config.traceExpiration ≤ 0 → (getTraces s now).1 = s) ∧
    (0 < s.config.traceExpiration →
      (getTraces s now).1.traces = keptOf (now - s.config.traceExpiration) s.traces ∧
      (getTraces s now).1.droppedOldest
        = s.droppedOldest + (droppedOf (now - s.config.traceExpiration) s.traces).length ∧
      (getTraces s now).1.totalSizeBytes
        = s.totalSizeBytes - sizeSum (droppedOf (now - s.config.traceExpiration) s.traces) ∧
      (getTraces s now).1.totalSpanCount
        = s.totalSpanCount - spanSum (droppedOf (now - s.config.traceExpiration) s.traces)) := by
  constructor
  · intro h
    show expireOldTracesLocked s now = s
    exact expire_noCap s now h
  · intro h
    have hs := expire_spec s now h
    have hfst : (getTraces s now).1 = expireOldTracesLocked s now := rfl
    rw [hfst, hs]
    exact ⟨rfl, rfl, rfl, rfl⟩

/-- Witness for C9 on the sample store: window 10, entry at 0, snapshot at
instant 10 removes the entry. -/
theorem ageExpiry_boundary_spec_witness :
    (0 : Int) < c9store.config.traceExpiration ∧
    (getTraces c9store 10).1.traces
      = keptOf (10 - c9store.config.traceExpiration) c9store.traces :=
  ⟨by decide, ((ageExpiry_boundary_spec c9store 10).2 (by decide)).1⟩

/-- Counterexample to C9 as stated: the sample entry was received exactly at
now minus maxAge, hence is not older than that instant, yet the snapshot
taken at instant 10 removes it (and bumps droppedOldest), where the claim
says only strictly older entries are removed. -/
theorem ageExpiry_strict_boundary_counterexample :
    c9store.config.traceExpiration = 10 ∧
    (⟨c9batch, 0, 1624⟩ : TraceEntry) ∈ c9store.traces ∧
    ¬ ((⟨c9batch, 0, 1624⟩ : TraceEntry).timestamp
        < 10 - c9store.config.traceExpiration) ∧
    (getTraces c9store 10).1.traces = [] ∧
    (getTraces c9store 10).1.droppedOldest = 1 := by decide

/-- Root span and two children tied on start time, for the determinism
refutations. -/
def spanR : Span := ⟨"t", "rr", "", "root", 1, 20⟩

def spanCA : Span := ⟨"t", "ca", "rr", "c1", 10, 12⟩

def spanCB : Span := ⟨"t", "cb", "rr", "c2", 10, 13⟩

/-- Span ids of the children of the root of a built tree. -/
def rootChildIds : Option SpanTreeNode → List String
  | some n => n.children.map (fun c => c.span.spanId)
  | none => []

/-- Claim C7 (refutation): two runs over the same fixed span set, differing
only in the unspecified map iteration order of spanMap, build the root
children in different orders when two children tie on start time (the sort
compares start times only, with no span id tie-break), so repeated
reconstruction is not deterministic. Both orders enumerate the same span
map, and the two tied children have equal start times. -/
theorem treeOrder_depends_on_map_iteration :
    rootChildIds (buildSpanTreeF 4 [spanR, spanCA, spanCB] [spanR, spanCA, spanCB])
      = ["ca", "cb"] ∧
    rootChildIds (buildSpanTreeF 4 [spanR, spanCA, spanCB] [spanR, spanCB, spanCA])
      = ["cb", "ca"] ∧
    List.Perm [spanR, spanCB, spanCA]
      ((mkSpanMap [spanR, spanCA, spanCB]).map (fun p => p.2)) ∧
    spanCA.startTime = spanCB.startTime := by decide

/-- Two one-span traces tied on earliest start time, for the trace ordering
refutation. -/
def spanT1 : Span := ⟨"aaa", "s1", "", "x", 7, 9⟩

def spanT2 : Span := ⟨"bbb", "s2", "", "y", 7, 9⟩

/-- Claim C8 (refutation): the trace slice is built by iterating traceMap in
unspecified order and sorted by earliest start time only; for two traces
tied on earliest start time the two possible iteration orders survive the
sort unchanged, so the output order is not deterministic and no trace id
tie-break happens. -/
theorem traceOrder_depends_on_map_iteration :
    groupByTrace [spanT1, spanT2] = [("aaa", [spanT1]), ("bbb", [spanT2])] ∧
    (sortTracesByEarliest [("aaa", [spanT1]), ("bbb", [spanT2])]).map (fun p => p.1)
      = ["aaa", "bbb"] ∧
    (sortTracesByEarliest [("bbb", [spanT2]), ("aaa", [spanT1])]).map (fun p => p.1)
      = ["bbb", "aaa"] ∧
    List.Perm [("bbb", [spanT2]), ("aaa", [spanT1])] (groupByTrace [spanT1, spanT2]) ∧
    getEarliestTime [spanT1] = getEarliestTime [spanT2] := by decide

